import Mathlib

/-!
Shallow embedding of `src/_misc/throttle/scripts/throttle.py`
(class `AdvancedFunctionThrottler`), the keyed call-throttling dispatcher.

Modelling conventions:
* Python `dict`s become association lists (`List (Key × α)`) with first-match
  lookup (`alookup`) and replace-first-or-append update (`setKey`); this is the
  observable behaviour of a Python dict (each key occurs at most once in
  reachable states, and updates replace in place).
* `collections.deque` becomes a `List` with the head as the front:
  `popleft` is taking the head, `pop` is `dropLast`, `append` adds at the tail.
* `time.time()` becomes an explicit clock stream `clock : Nat → Rat` together
  with a read counter `t : Nat`; every textual `time.time()` call in the source
  consumes one reading.
* A user callable is abstracted by its identity `fnId`, its captured arguments
  `argsId`, and a flag `fails` saying whether invoking it raises.  Invocations
  are recorded in a ghost `executions` log; callables do not touch the
  dispatcher state (no reentrancy), matching the single-threaded model.
* TouchDesigner's `run(delayed_exec, delayFrames=int(delay * 60))` becomes a
  ghost `scheduled` log entry recording the popped call, the delay in seconds
  and the frame count `Int.floor (delay * 60)` (for the positive delays that
  occur here, Python `int()` truncation agrees with the floor).
* `deque.popleft()` / `deque.pop()` raise `IndexError` on an empty deque; the
  one place this is reachable (`queue_call`'s eviction branches when
  `max_queue_size = 0`) is modelled by `queue_call` returning `none`
  (an uncaught exception); every normal path returns `some`.
* The mutual recursion `_process_queue` ↔ `_execute_and_continue` is embedded
  as structural recursion on a `fuel` parameter that bounds only the
  recursion depth: one unit is consumed per execute-then-continue cycle, so
  any `fuel` larger than the key's queue length makes the embedding exact.
-/

abbrev Key := String

/-- A queued call: `(function_ref, args, kwargs, current_time)` tuple from
`queue_call`, with the callable abstracted by an id and a raises-flag. -/
structure PendingCall where
  fnId : Nat
  fails : Bool
  argsId : Nat
  queueTime : Rat
deriving DecidableEq

/-- The `queue_strategy` configuration values
(`"drop_oldest" | "drop_newest" | "skip_new"`). -/
inductive QueueStrategy where
  | dropOldest
  | dropNewest
  | skipNew
deriving DecidableEq

/-- A record of one `run(delayed_exec, delayFrames=int(delay * 60))` request
issued by `_process_queue` for a popped entry. -/
structure SchedEvent where
  key : Key
  call : PendingCall
  delaySeconds : Rat
  delayFrames : Int
deriving DecidableEq

/-- The instance state of `AdvancedFunctionThrottler`, plus the two ghost logs
(`scheduled`, `executions`) recording its externally visible effects. -/
structure DState where
  throttle_time : Rat
  call_queues : List (Key × List PendingCall)
  last_execution_time : List (Key × Rat)
  processing_flags : List (Key × Bool)
  max_queue_size : Nat
  queue_strategy : QueueStrategy
  total_max_queued_items : Nat
  dropped_calls : Nat
  total_calls : Nat
  scheduled : List SchedEvent
  executions : List (Key × Nat)
deriving DecidableEq

/-- First-match lookup in an association list (Python `d[k]` / `d.get(k)`). -/
def alookup {α : Type} (m : List (Key × α)) (k : Key) : Option α :=
  match m with
  | [] => none
  | (k₁, v) :: rest => if k₁ = k then some v else alookup rest k

/-- Replace the first binding of `k` (or append one): Python `d[k] = v`. -/
def setKey {α : Type} (m : List (Key × α)) (k : Key) (v : α) : List (Key × α) :=
  match m with
  | [] => [(k, v)]
  | (k₁, v₁) :: rest => if k₁ = k then (k, v) :: rest else (k₁, v₁) :: setKey rest k v

/-- The queue for a key; a missing key reads as the empty queue. -/
def DState.queueOf (st : DState) (k : Key) : List PendingCall :=
  (alookup st.call_queues k).getD []

/-- Computes `sum(len(q) for q in self.call_queues.values())`. -/
def sumLens (m : List (Key × List PendingCall)) : Nat :=
  (m.map (fun p => p.2.length)).sum

/-- The state effects of `AdvancedFunctionThrottler._execute_and_continue`
up to but not including its final continuation: invoke the callable (logged
in `executions`); on success only, read the clock and update
`last_execution_time[key]`; then — `finally` — reset the processing flag. -/
def execStep (clock : Nat → Rat) (st : DState) (t : Nat) (key : Key)
    (call : PendingCall) : DState × Nat :=
  let st₀ : DState := { st with executions := st.executions ++ [(key, call.fnId)] }
  -- `last_execution_time[key] = time.time()` runs only when the callable
  -- did not raise; the clock read happens exactly then
  let st₁ : DState :=
    if call.fails then st₀
    else { st₀ with
           last_execution_time := setKey st₀.last_execution_time key (clock t) }
  let t₁ : Nat := if call.fails then t else t + 1
  ({ st₁ with processing_flags := setKey st₁.processing_flags key false }, t₁)

/-- Embedding of `AdvancedFunctionThrottler._process_queue`: return if the key has no
queue or an empty one; otherwise set the processing flag, pop the oldest
entry, read the clock, and either run `_execute_and_continue` now (when
`time_since_last >= throttle_time`, with `last_execution_time` defaulting
to `0`) or schedule the popped entry after `throttle_time - time_since_last`.
The body of `_execute_and_continue` (`execStep` followed by the conditional
re-entry into `_process_queue`) is written inline so that the mutual
recursion of the source becomes structural recursion on `fuel`; one unit of
fuel is consumed per execute-then-continue cycle, so the embedding is exact
whenever `fuel` exceeds the key's queue length. -/
def processQueue (clock : Nat → Rat) : Nat → DState → Nat → Key → DState × Nat
  | 0, st, t, _ => (st, t)
  | fuel + 1, st, t, key =>
    match st.queueOf key with
    | [] => (st, t)
    | call :: rest =>
      let st₁ := { st with
        processing_flags := setKey st.processing_flags key true,
        call_queues := setKey st.call_queues key rest }
      let current_time := clock t
      let last_exec := (alookup st₁.last_execution_time key).getD 0
      let time_since_last := current_time - last_exec
      if st₁.throttle_time ≤ time_since_last then
        -- `_execute_and_continue(function_name, function_ref, args, kwargs)`
        let s := execStep clock st₁ (t + 1) key call
        if 0 < (DState.queueOf s.1 key).length then
          processQueue clock fuel s.1 s.2 key
        else s
      else
        let delay := st₁.throttle_time - time_since_last
        ({ st₁ with
           scheduled := st₁.scheduled ++
             [⟨key, call, delay, Int.floor (delay * 60)⟩] },
         t + 1)

/-- Embedding of `AdvancedFunctionThrottler._execute_and_continue`: the
execution step, then — still inside `finally` — if more items are queued
for the key, continue processing via `_process_queue`. -/
def executeAndContinue (clock : Nat → Rat) (fuel : Nat) (st : DState)
    (t : Nat) (key : Key) (call : PendingCall) : DState × Nat :=
  let s := execStep clock st t key call
  if 0 < (DState.queueOf s.1 key).length then
    processQueue clock fuel s.1 s.2 key
  else s

/-- Embedding of `AdvancedFunctionThrottler.queue_call`: count the call, lazily create the
key's queue and flag, enforce the global limit, apply the overflow strategy,
enqueue at the tail, and start a drain when the key is not being processed.
`none` models the uncaught `IndexError` of evicting from an empty deque
(reachable only when `max_queue_size = 0`). -/
def queue_call (clock : Nat → Rat) (st : DState) (t : Nat) (key : Key)
    (fnId : Nat) (fails : Bool) (argsId : Nat) (fuel : Nat) :
    Option (Bool × DState × Nat) :=
  let current_time := clock t
  let t₁ := t + 1
  let stA := { st with total_calls := st.total_calls + 1 }
  let stB :=
    if (alookup stA.call_queues key).isNone then
      { stA with
        call_queues := setKey stA.call_queues key [],
        processing_flags := setKey stA.processing_flags key false }
    else stA
  let total_queued := sumLens stB.call_queues
  if stB.total_max_queued_items ≤ total_queued then
    some (false, { stB with dropped_calls := stB.dropped_calls + 1 }, t₁)
  else
    let q := stB.queueOf key
    -- enqueue at the tail, then start a drain unless one is already in flight
    let proceed : DState → List PendingCall → Option (Bool × DState × Nat) :=
      fun stC q₁ =>
        let stD := { stC with
          call_queues := setKey stC.call_queues key
            (q₁ ++ [⟨fnId, fails, argsId, current_time⟩]) }
        if (alookup stD.processing_flags key).getD false then
          some (true, stD, t₁)
        else
          let r := processQueue clock fuel stD t₁ key
          some (true, r.1, r.2)
    if stB.max_queue_size ≤ q.length then
      match stB.queue_strategy with
      | QueueStrategy.skipNew =>
        some (false, { stB with dropped_calls := stB.dropped_calls + 1 }, t₁)
      | QueueStrategy.dropOldest =>
        match q with
        | [] => none
        | _ :: qrest =>
          proceed { stB with dropped_calls := stB.dropped_calls + 1 } qrest
      | QueueStrategy.dropNewest =>
        match q with
        | [] => none
        | _ :: _ =>
          proceed { stB with dropped_calls := stB.dropped_calls + 1 } q.dropLast
    else proceed stB q

/-- Embedding of `AdvancedFunctionThrottler.set_throttle_time`. -/
def set_throttle_time (st : DState) (seconds : Rat) : DState :=
  { st with throttle_time := seconds }

/-- Embedding of `AdvancedFunctionThrottler.set_queue_limits`. -/
def set_queue_limits (st : DState) (max_per_queue : Nat)
    (strategy : QueueStrategy) (global_max : Nat) : DState :=
  { st with
    max_queue_size := max_per_queue,
    queue_strategy := strategy,
    total_max_queued_items := global_max }

/-- Embedding of `AdvancedFunctionThrottler.clear_queue` for `function_name=None` (and for
the falsy key `""`, which takes the same Python branch): clear every queue,
reset every processing flag, count the discarded calls as dropped. -/
def clearAll (st : DState) : Nat × DState :=
  let total_dropped := sumLens st.call_queues
  (total_dropped,
   { st with
     call_queues := st.call_queues.map (fun p => (p.1, ([] : List PendingCall))),
     processing_flags := st.processing_flags.map (fun p => (p.1, false)),
     dropped_calls := st.dropped_calls + total_dropped })

/-- Embedding of `AdvancedFunctionThrottler.clear_queue`: a truthy key clears only that
key's queue (0 for an unknown key); `None` or a falsy key clears everything. -/
def clear_queue (st : DState) (key : Option Key) : Nat × DState :=
  match key with
  | none => clearAll st
  | some k =>
    if k = "" then clearAll st
    else
      match alookup st.call_queues k with
      | none => (0, st)
      | some q =>
        (q.length,
         { st with
           call_queues := setKey st.call_queues k [],
           processing_flags := setKey st.processing_flags k false,
           dropped_calls := st.dropped_calls + q.length })

/-- The state built by `AdvancedFunctionThrottler.__init__` followed by the
module-level `advanced_throttler.set_queue_limits(max_per_queue=5,
strategy="drop_oldest", global_max=50)`. -/
def initState : DState :=
  set_queue_limits
    { throttle_time := 1 / 10
      call_queues := []
      last_execution_time := []
      processing_flags := []
      max_queue_size := 10
      queue_strategy := QueueStrategy.dropOldest
      total_max_queued_items := 100
      dropped_calls := 0
      total_calls := 0
      scheduled := []
      executions := [] }
    5 QueueStrategy.dropOldest 50

/-- Relation between a state and its successor across a drain step: every
queue is no longer than before (pointwise and summed) and the configuration
and counters are untouched. -/
def DrainLe (st' st : DState) : Prop :=
  (∀ k, (st'.queueOf k).length ≤ (st.queueOf k).length)
  ∧ sumLens st'.call_queues ≤ sumLens st.call_queues
  ∧ st'.throttle_time = st.throttle_time
  ∧ st'.max_queue_size = st.max_queue_size
  ∧ st'.queue_strategy = st.queue_strategy
  ∧ st'.total_max_queued_items = st.total_max_queued_items
  ∧ st'.dropped_calls = st.dropped_calls
  ∧ st'.total_calls = st.total_calls

/-- A dispatcher with one known key, an empty queue and a stale non-idle
flag: concrete input for exercising `clear_queue`. -/
def emptyQueuesState : DState :=
  { throttle_time := 2
    call_queues := [("a", [])]
    last_execution_time := [("a", 3)]
    processing_flags := [("a", true)]
    max_queue_size := 5
    queue_strategy := QueueStrategy.dropOldest
    total_max_queued_items := 50
    dropped_calls := 0
    total_calls := 4
    scheduled := []
    executions := [] }

/-- A dispatcher whose single queued item already exhausts the global
budget (`total_max_queued_items = 1`), with key `"g"` never submitted. -/
def globalFullState : DState :=
  { throttle_time := 2
    call_queues := [("a", [⟨1, false, 0, 0⟩])]
    last_execution_time := []
    processing_flags := [("a", true)]
    max_queue_size := 5
    queue_strategy := QueueStrategy.dropOldest
    total_max_queued_items := 1
    dropped_calls := 0
    total_calls := 1
    scheduled := []
    executions := [] }

/-- What the globally rejected submit of key `"g"` leaves behind. -/
def globalRejectSt : DState :=
  { globalFullState with
    total_calls := 2
    dropped_calls := 1
    call_queues := [("a", [⟨1, false, 0, 0⟩]), ("g", [])]
    processing_flags := [("a", true), ("g", false)] }

/-- The unconditional prefix of `queue_call`: count the call and lazily
create the key's queue and flag. -/
def admitInit (st : DState) (key : Key) : DState :=
  if (alookup st.call_queues key).isNone then
    { st with
      total_calls := st.total_calls + 1,
      call_queues := setKey st.call_queues key [],
      processing_flags := setKey st.processing_flags key false }
  else { st with total_calls := st.total_calls + 1 }

/-- The remainder of `queue_call` after `admitInit`: global limit, overflow
strategy, enqueue, and conditional drain. -/
def submitAfterInit (clock : Nat → Rat) (stB : DState) (t : Nat) (key : Key)
    (fnId : Nat) (fails : Bool) (argsId : Nat) (fuel : Nat) :
    Option (Bool × DState × Nat) :=
  let current_time := clock t
  let t₁ := t + 1
  let total_queued := sumLens stB.call_queues
  if stB.total_max_queued_items ≤ total_queued then
    some (false, { stB with dropped_calls := stB.dropped_calls + 1 }, t₁)
  else
    let q := stB.queueOf key
    let proceed : DState → List PendingCall → Option (Bool × DState × Nat) :=
      fun stC q₁ =>
        let stD := { stC with
          call_queues := setKey stC.call_queues key
            (q₁ ++ [⟨fnId, fails, argsId, current_time⟩]) }
        if (alookup stD.processing_flags key).getD false then
          some (true, stD, t₁)
        else
          let r := processQueue clock fuel stD t₁ key
          some (true, r.1, r.2)
    if stB.max_queue_size ≤ q.length then
      match stB.queue_strategy with
      | QueueStrategy.skipNew =>
        some (false, { stB with dropped_calls := stB.dropped_calls + 1 }, t₁)
      | QueueStrategy.dropOldest =>
        match q with
        | [] => none
        | _ :: qrest =>
          proceed { stB with dropped_calls := stB.dropped_calls + 1 } qrest
      | QueueStrategy.dropNewest =>
        match q with
        | [] => none
        | _ :: _ =>
          proceed { stB with dropped_calls := stB.dropped_calls + 1 } q.dropLast
    else proceed stB q

/-- A dispatcher with one known key `"a"` whose drain is in flight:
concrete input for exercising the admission logic of `queue_call`. -/
def busyState : DState :=
  { throttle_time := 2
    call_queues := [("a", [⟨1, false, 0, 0⟩])]
    last_execution_time := [("a", 0)]
    processing_flags := [("a", true)]
    max_queue_size := 5
    queue_strategy := QueueStrategy.dropOldest
    total_max_queued_items := 50
    dropped_calls := 0
    total_calls := 1
    scheduled := []
    executions := [] }

/-- What accepting fnId 2 into `busyState` leaves behind. -/
def busyStateAfter : DState :=
  { busyState with
    total_calls := 2
    call_queues := [("a", [⟨1, false, 0, 0⟩, ⟨2, false, 0, 0⟩])] }

/-- A dispatcher under `drop_newest` with the key's queue exactly at
`max_queue_size` and a drain in flight. -/
def dropNewestState : DState :=
  { throttle_time := 2
    call_queues := [("a", [⟨1, false, 0, 0⟩, ⟨2, false, 0, 1⟩])]
    last_execution_time := [("a", 0)]
    processing_flags := [("a", true)]
    max_queue_size := 2
    queue_strategy := QueueStrategy.dropNewest
    total_max_queued_items := 50
    dropped_calls := 0
    total_calls := 2
    scheduled := []
    executions := [] }

/-- What the overflowing submit of fnId 9 leaves behind: entry 2 (the tail)
evicted, the incoming call appended. -/
def dropNewestStateAfter : DState :=
  { dropNewestState with
    total_calls := 3
    dropped_calls := 1
    call_queues := [("a", [⟨1, false, 0, 0⟩, ⟨9, false, 7, 3⟩])] }

/-- A constant clock, used by the reconfiguration trace. -/
def zeroClock : Nat → Rat := fun _ => 0

/-- Intermediate states of the reconfiguration trace: throttle 100s, key
`"f"` mid-drain with its first call scheduled, `items` still queued. -/
def c5Mid (items : List Nat) (total : Nat) : DState :=
  { throttle_time := 100
    call_queues := [("f", items.map (fun i => ⟨i, false, 0, 0⟩))]
    last_execution_time := []
    processing_flags := [("f", true)]
    max_queue_size := 5
    queue_strategy := QueueStrategy.dropOldest
    total_max_queued_items := 50
    dropped_calls := 0
    total_calls := total
    scheduled := [⟨"f", ⟨1, false, 0, 0⟩, 100, 6000⟩]
    executions := [] }

/-- The end state of the reconfiguration trace: five items queued though
`max_queue_size` was lowered to 2 before the last submit. -/
def c5Final : DState :=
  { c5Mid [3, 4, 5, 6, 7] 7 with
    max_queue_size := 2
    dropped_calls := 1 }

/-- A dispatcher mid-drain for `"f"` with an empty remaining queue. -/
def midDrainState : DState :=
  { throttle_time := 2
    call_queues := [("f", [])]
    last_execution_time := []
    processing_flags := [("f", true)]
    max_queue_size := 5
    queue_strategy := QueueStrategy.dropOldest
    total_max_queued_items := 50
    dropped_calls := 0
    total_calls := 1
    scheduled := []
    executions := [] }

/-- Variant of `midDrainState` with one failing call still queued for `"f"`. -/
def midDrainState2 : DState :=
  { midDrainState with call_queues := [("f", [⟨2, true, 0, 0⟩])] }

/-- The call-stack depth of the source's drain recursion, mirroring
`processQueue` cycle for cycle.  In the Python source `_process_queue`
invokes `self._execute_and_continue(...)`, whose `finally` block invokes
`self._process_queue(...)` again while both frames are still live, so every
synchronously executed backlog item keeps one `_process_queue` frame and
one `_execute_and_continue` frame on the stack; a frame that returns
without executing (empty queue, or a scheduled deferral) contributes just
itself. -/
def pqStackDepth (clock : Nat → Rat) : Nat → DState → Nat → Key → Nat
  | 0, _, _, _ => 1
  | fuel + 1, st, t, key =>
    match st.queueOf key with
    | [] => 1
    | call :: rest =>
      let st₁ := { st with
        processing_flags := setKey st.processing_flags key true,
        call_queues := setKey st.call_queues key rest }
      let current_time := clock t
      let last_exec := (alookup st₁.last_execution_time key).getD 0
      let time_since_last := current_time - last_exec
      if st₁.throttle_time ≤ time_since_last then
        let s := execStep clock st₁ (t + 1) key call
        1 + (1 + (if 0 < (DState.queueOf s.1 key).length then
          pqStackDepth clock fuel s.1 s.2 key
        else 0))
      else 1

/-- A callable that always succeeds. -/
def okCall : PendingCall := ⟨0, false, 0, 0⟩

/-- A dispatcher with `n` immediately-eligible calls queued for `key`
(zero throttle interval) and no drain in flight. -/
def backlogState (key : Key) (n : Nat) : DState :=
  { throttle_time := 0
    call_queues := [(key, List.replicate n okCall)]
    last_execution_time := []
    processing_flags := [(key, false)]
    max_queue_size := n + 1
    queue_strategy := QueueStrategy.dropOldest
    total_max_queued_items := n + 1
    dropped_calls := 0
    total_calls := n
    scheduled := []
    executions := [] }

@[simp]
theorem sumLens_nil : sumLens [] = 0 := rfl

@[simp]
theorem sumLens_cons (k : Key) (q : List PendingCall)
    (m : List (Key × List PendingCall)) :
    sumLens ((k, q) :: m) = q.length + sumLens m := by
  simp [sumLens]

theorem alookup_setKey_self {α : Type} (m : List (Key × α)) (k : Key) (v : α) :
    alookup (setKey m k v) k = some v := by
  induction m with
  | nil => simp [setKey, alookup]
  | cons p rest ih =>
    obtain ⟨k₁, v₁⟩ := p
    by_cases h : k₁ = k
    · simp [setKey, h, alookup]
    · simp [setKey, h, alookup, ih]

theorem alookup_setKey_ne {α : Type} (m : List (Key × α)) {k₁ k₂ : Key} (v : α)
    (h : k₁ ≠ k₂) : alookup (setKey m k₁ v) k₂ = alookup m k₂ := by
  induction m with
  | nil => simp [setKey, alookup, h]
  | cons p rest ih =>
    obtain ⟨k₃, v₃⟩ := p
    by_cases h₃ : k₃ = k₁
    · subst h₃; simp [setKey, alookup, h]
    · simp [setKey, h₃, alookup, ih]

theorem sumLens_setKey (m : List (Key × List PendingCall)) (k : Key)
    (v : List PendingCall) :
    sumLens (setKey m k v) + ((alookup m k).getD []).length
      = sumLens m + v.length := by
  induction m with
  | nil => simp [setKey, alookup]
  | cons p rest ih =>
    obtain ⟨k₁, v₁⟩ := p
    by_cases h : k₁ = k
    · simp [setKey, h, alookup]
      omega
    · simp [setKey, h, alookup, ih]
      omega

/-- Popping the head of one key's queue never lengthens any queue. -/
theorem length_alookup_setKey_le (m : List (Key × List PendingCall))
    (key k : Key) (call : PendingCall) (rest : List PendingCall)
    (h : (alookup m key).getD [] = call :: rest) :
    ((alookup (setKey m key rest) k).getD []).length
      ≤ ((alookup m k).getD []).length := by
  by_cases hk : key = k
  · subst hk
    rw [alookup_setKey_self, h]
    simp
  · rw [alookup_setKey_ne _ _ hk]

theorem DrainLe.rfl (st : DState) : DrainLe st st := by
  refine ⟨fun k => le_refl _, le_refl _, ?_, ?_, ?_, ?_, ?_, ?_⟩ <;> rfl

theorem DrainLe.trans {st₂ st₁ st : DState} (h₂ : DrainLe st₂ st₁)
    (h₁ : DrainLe st₁ st) : DrainLe st₂ st := by
  obtain ⟨a₂, b₂, c₂, d₂, e₂, f₂, g₂, i₂⟩ := h₂
  obtain ⟨a₁, b₁, c₁, d₁, e₁, f₁, g₁, i₁⟩ := h₁
  exact ⟨fun k => le_trans (a₂ k) (a₁ k), le_trans b₂ b₁, c₂.trans c₁,
    d₂.trans d₁, e₂.trans e₁, f₂.trans f₁, g₂.trans g₁, i₂.trans i₁⟩

/-- The execution step only touches `executions`, `last_execution_time`
and the processing flag: queues, configuration and counters are unchanged. -/
theorem execStep_drainLe (clock : Nat → Rat) (st : DState) (t : Nat)
    (key : Key) (call : PendingCall) :
    DrainLe (execStep clock st t key call).1 st := by
  by_cases hf : call.fails <;>
    simp [execStep, hf, DrainLe, DState.queueOf]

/-- The drain function `_process_queue` only shrinks queues and leaves configuration and call
counters untouched. -/
theorem processQueue_drainLe (clock : Nat → Rat) (fuel : Nat) (st : DState)
    (t : Nat) (key : Key) :
    DrainLe (processQueue clock fuel st t key).1 st := by
  induction fuel generalizing st t with
  | zero => exact DrainLe.rfl st
  | succ fuel ih =>
    rw [processQueue]
    cases hq : st.queueOf key with
    | nil => simp only [hq]; exact DrainLe.rfl st
    | cons call rest =>
      simp only [hq]
      have hpop : DrainLe
          { st with
            processing_flags := setKey st.processing_flags key true,
            call_queues := setKey st.call_queues key rest } st := by
        refine ⟨?_, ?_, rfl, rfl, rfl, rfl, rfl, rfl⟩
        · intro k
          exact length_alookup_setKey_le st.call_queues key k call rest hq
        · show sumLens (setKey st.call_queues key rest) ≤ sumLens st.call_queues
          have h := sumLens_setKey st.call_queues key rest
          rw [show (alookup st.call_queues key).getD [] = call :: rest from hq] at h
          simp at h
          omega
      split
      · split
        · exact DrainLe.trans (DrainLe.trans (ih _ _)
            (execStep_drainLe clock _ (t + 1) key call)) hpop
        · exact DrainLe.trans (execStep_drainLe clock _ (t + 1) key call) hpop
      · exact DrainLe.trans
          ⟨fun k => le_refl _, le_refl _, rfl, rfl, rfl, rfl, rfl, rfl⟩ hpop

/-- The drain function `_execute_and_continue` only shrinks queues and leaves configuration
and call counters untouched. -/
theorem executeAndContinue_drainLe (clock : Nat → Rat) (fuel : Nat)
    (st : DState) (t : Nat) (key : Key) (call : PendingCall) :
    DrainLe (executeAndContinue clock fuel st t key call).1 st := by
  rw [executeAndContinue]
  split
  · exact DrainLe.trans (processQueue_drainLe clock fuel _ _ key)
      (execStep_drainLe clock st t key call)
  · exact execStep_drainLe clock st t key call

theorem sumLens_eq_zero (m : List (Key × List PendingCall))
    (h : ∀ p ∈ m, p.2 = ([] : List PendingCall)) : sumLens m = 0 := by
  induction m with
  | nil => rfl
  | cons p rest ih =>
    obtain ⟨k, q⟩ := p
    have hq : q = [] := h (k, q) (List.mem_cons_self _ _)
    simp [hq, ih fun p hp => h p (List.mem_cons_of_mem _ hp)]

theorem map_clear_eq_self (m : List (Key × List PendingCall))
    (h : ∀ p ∈ m, p.2 = ([] : List PendingCall)) :
    m.map (fun p => (p.1, ([] : List PendingCall))) = m := by
  induction m with
  | nil => rfl
  | cons p rest ih =>
    obtain ⟨k, q⟩ := p
    have hq : q = [] := h (k, q) (List.mem_cons_self _ _)
    simp [hq, ih fun p hp => h p (List.mem_cons_of_mem _ hp)]

/-- C10: `clear_queue` — with or without a key — never touches
`last_execution_time` (nor the throttle interval), so a submission after a
clear is still throttled against the key's last execution from before the
clear rather than treated as a fresh key. -/
theorem clear_queue_preserves_last_execution (st : DState) (key : Option Key) :
    (clear_queue st key).2.last_execution_time = st.last_execution_time
      ∧ (clear_queue st key).2.throttle_time = st.throttle_time := by
  cases key with
  | none => exact ⟨rfl, rfl⟩
  | some k =>
    by_cases hk : k = ""
    · simp [clear_queue, hk, clearAll]
    · simp only [clear_queue, hk, if_false]
      cases h : alookup st.call_queues k with
      | none => exact ⟨rfl, rfl⟩
      | some q => exact ⟨rfl, rfl⟩

/-- C8: `clear_queue` with no key on a dispatcher whose queues are all
empty returns 0, leaves every per-key processing flag idle, and leaves the
queue map unchanged. -/
theorem clear_queue_empty_idempotent (st : DState)
    (h : ∀ p ∈ st.call_queues, p.2 = ([] : List PendingCall)) :
    (clear_queue st none).1 = 0
      ∧ (clear_queue st none).2.call_queues = st.call_queues
      ∧ (∀ p ∈ (clear_queue st none).2.processing_flags, p.2 = false)
      ∧ (clear_queue st none).2.dropped_calls = st.dropped_calls := by
  have hsum : sumLens st.call_queues = 0 := sumLens_eq_zero _ h
  refine ⟨hsum, ?_, ?_, ?_⟩
  · show st.call_queues.map (fun p => (p.1, ([] : List PendingCall))) = st.call_queues
    exact map_clear_eq_self _ h
  · intro p hp
    simp only [clear_queue, clearAll] at hp
    obtain ⟨q, hq, hpq⟩ := List.mem_map.mp hp
    simp [← hpq]
  · show st.dropped_calls + sumLens st.call_queues = st.dropped_calls
    simp [hsum]

/-- C8 witness: `clear_queue` on `emptyQueuesState`. -/
theorem clear_queue_empty_idempotent_witness :
    (∀ p ∈ emptyQueuesState.call_queues, p.2 = ([] : List PendingCall))
      ∧ ((clear_queue emptyQueuesState none).1 = 0
        ∧ (clear_queue emptyQueuesState none).2.call_queues
            = emptyQueuesState.call_queues
        ∧ (∀ p ∈ (clear_queue emptyQueuesState none).2.processing_flags,
            p.2 = false)
        ∧ (clear_queue emptyQueuesState none).2.dropped_calls
            = emptyQueuesState.dropped_calls) :=
  ⟨by decide, clear_queue_empty_idempotent emptyQueuesState (by decide)⟩

theorem sumLens_setKey_nil (m : List (Key × List PendingCall)) (k : Key)
    (h : alookup m k = none) : sumLens (setKey m k []) = sumLens m := by
  have hs := sumLens_setKey m k []
  rw [h] at hs
  simpa using hs

/-- C9 (amended): when a submit is rejected because the total queued count
is at or above the global maximum, it returns `false` having enqueued and
evicted nothing: every queue reads unchanged, and `last_execution_time` is
untouched; but the guard runs only after the lazy per-key initialisation,
so a previously unseen key still gains an empty queue and an idle
processing flag in the maps. -/
theorem queue_call_global_reject (clock : Nat → Rat) (st : DState) (t : Nat)
    (key : Key) (fnId : Nat) (fails : Bool) (argsId : Nat) (fuel : Nat)
    (r : Bool) (st' : DState) (t' : Nat)
    (h : st.total_max_queued_items ≤ sumLens st.call_queues)
    (heq : queue_call clock st t key fnId fails argsId fuel
      = some (r, st', t')) :
    r = false
      ∧ t' = t + 1
      ∧ st'.last_execution_time = st.last_execution_time
      ∧ (∀ k, st'.queueOf k = st.queueOf k)
      ∧ st'.dropped_calls = st.dropped_calls + 1
      ∧ st'.total_calls = st.total_calls + 1
      ∧ (alookup st.call_queues key ≠ none →
          st'.call_queues = st.call_queues
            ∧ st'.processing_flags = st.processing_flags)
      ∧ (alookup st.call_queues key = none →
          st'.call_queues = setKey st.call_queues key []
            ∧ st'.processing_flags = setKey st.processing_flags key false) := by
  by_cases hk : (alookup st.call_queues key).isNone
  · have hknone : alookup st.call_queues key = none :=
      Option.isNone_iff_eq_none.mp hk
    simp only [queue_call] at heq
    rw [hk] at heq
    simp only [if_true] at heq
    rw [if_pos (by
      show st.total_max_queued_items ≤ sumLens (setKey st.call_queues key [])
      rw [sumLens_setKey_nil _ _ hknone]
      exact h)] at heq
    simp only [Option.some.injEq, Prod.mk.injEq] at heq
    obtain ⟨hr, hst, ht⟩ := heq
    refine ⟨hr.symm, ht.symm, by rw [← hst], ?_, by rw [← hst], by rw [← hst],
      fun hc => absurd hknone hc, fun _ => by rw [← hst]; exact ⟨rfl, rfl⟩⟩
    intro k
    rw [← hst]
    show (alookup (setKey st.call_queues key []) k).getD [] = st.queueOf k
    by_cases hkk : key = k
    · subst hkk
      rw [alookup_setKey_self]
      show ([] : List PendingCall) = (alookup st.call_queues key).getD []
      rw [hknone]
      rfl
    · rw [alookup_setKey_ne _ _ hkk]
      rfl
  · have hksome : ¬ (alookup st.call_queues key).isNone = true := hk
    simp only [queue_call] at heq
    rw [Bool.not_eq_true] at hksome
    rw [hksome] at heq
    simp only [Bool.false_eq_true, if_false] at heq
    rw [if_pos (show st.total_max_queued_items ≤ sumLens st.call_queues from h)]
      at heq
    simp only [Option.some.injEq, Prod.mk.injEq] at heq
    obtain ⟨hr, hst, ht⟩ := heq
    refine ⟨hr.symm, ht.symm, by rw [← hst], ?_, by rw [← hst], by rw [← hst],
      fun _ => by rw [← hst]; exact ⟨rfl, rfl⟩,
      fun hc => absurd hc (Option.isNone_iff_eq_none.not.mp hk)⟩
    intro k
    rw [← hst]
    rfl

/-- C9 counterexample: a globally rejected submit for the never-seen key
`"g"` does NOT leave the per-key state exactly as before — the queue map
and flag map gain entries for `"g"`. -/
theorem queue_call_global_reject_touches_fresh_key :
    queue_call (fun _ => 0) globalFullState 0 "g" 7 false 0 0
        = some (false, globalRejectSt, 1)
      ∧ alookup globalFullState.call_queues "g" = none
      ∧ alookup globalFullState.processing_flags "g" = none
      ∧ alookup globalRejectSt.call_queues "g" = some []
      ∧ alookup globalRejectSt.processing_flags "g" = some false
      ∧ globalRejectSt.call_queues ≠ globalFullState.call_queues
      ∧ globalRejectSt.processing_flags ≠ globalFullState.processing_flags := by
  decide

/-- C9 witness: the amended global-reject theorem applied to
`globalFullState` and key `"g"`. -/
theorem queue_call_global_reject_witness :
    (globalFullState.total_max_queued_items
        ≤ sumLens globalFullState.call_queues
      ∧ queue_call (fun _ => 0) globalFullState 0 "g" 7 false 0 0
          = some (false, globalRejectSt, 1))
    ∧ (false = false
      ∧ 1 = 0 + 1
      ∧ globalRejectSt.last_execution_time
          = globalFullState.last_execution_time
      ∧ (∀ k, globalRejectSt.queueOf k = globalFullState.queueOf k)
      ∧ globalRejectSt.dropped_calls = globalFullState.dropped_calls + 1
      ∧ globalRejectSt.total_calls = globalFullState.total_calls + 1
      ∧ (alookup globalFullState.call_queues "g" ≠ none →
          globalRejectSt.call_queues = globalFullState.call_queues
            ∧ globalRejectSt.processing_flags
                = globalFullState.processing_flags)
      ∧ (alookup globalFullState.call_queues "g" = none →
          globalRejectSt.call_queues
              = setKey globalFullState.call_queues "g" []
            ∧ globalRejectSt.processing_flags
                = setKey globalFullState.processing_flags "g" false)) :=
  ⟨⟨by decide, by decide⟩,
    queue_call_global_reject (fun _ => 0) globalFullState 0 "g" 7 false 0 0
      false globalRejectSt 1 (by decide) (by decide)⟩

/-- The function `queue_call` factors through the two stages. -/
theorem queue_call_eq_stages (clock : Nat → Rat) (st : DState) (t : Nat)
    (key : Key) (fnId : Nat) (fails : Bool) (argsId : Nat) (fuel : Nat) :
    queue_call clock st t key fnId fails argsId fuel
      = submitAfterInit clock (admitInit st key) t key fnId fails argsId fuel := by
  by_cases hinit : (alookup st.call_queues key).isNone <;>
    simp only [queue_call, submitAfterInit, admitInit, hinit, if_true,
      Bool.false_eq_true, if_false]

theorem admitInit_queueOf (st : DState) (key k : Key) :
    (admitInit st key).queueOf k = st.queueOf k := by
  by_cases hinit : (alookup st.call_queues key).isNone
  · have hnone : alookup st.call_queues key = none :=
      Option.isNone_iff_eq_none.mp hinit
    simp only [admitInit, hinit, if_true]
    show (alookup (setKey st.call_queues key []) k).getD []
      = (alookup st.call_queues k).getD []
    by_cases hk : key = k
    · subst hk
      rw [alookup_setKey_self, hnone]
      rfl
    · rw [alookup_setKey_ne _ _ hk]
  · simp only [admitInit, hinit, Bool.false_eq_true, if_false]
    rfl

theorem admitInit_sumLens (st : DState) (key : Key) :
    sumLens (admitInit st key).call_queues = sumLens st.call_queues := by
  by_cases hinit : (alookup st.call_queues key).isNone
  · simp only [admitInit, hinit, if_true]
    exact sumLens_setKey_nil _ _ (Option.isNone_iff_eq_none.mp hinit)
  · simp only [admitInit, hinit, Bool.false_eq_true, if_false]

theorem admitInit_of_known (st : DState) (key : Key)
    (h : ¬ alookup st.call_queues key = none) :
    admitInit st key = { st with total_calls := st.total_calls + 1 } := by
  simp only [admitInit, Option.isNone_iff_eq_none, h, if_false]

/-- Case analysis of the post-init stage of `queue_call`. -/
theorem submitAfterInit_cases (clock : Nat → Rat) (stB : DState) (t : Nat)
    (key : Key) (fnId : Nat) (fails : Bool) (argsId : Nat) (fuel : Nat)
    (r : Bool) (st' : DState) (t' : Nat)
    (heq : submitAfterInit clock stB t key fnId fails argsId fuel
      = some (r, st', t')) :
    (stB.total_max_queued_items ≤ sumLens stB.call_queues
      ∧ r = false ∧ t' = t + 1
      ∧ st' = { stB with dropped_calls := stB.dropped_calls + 1 })
    ∨ (¬ stB.total_max_queued_items ≤ sumLens stB.call_queues
      ∧ stB.max_queue_size ≤ (stB.queueOf key).length
      ∧ stB.queue_strategy = QueueStrategy.skipNew
      ∧ r = false ∧ t' = t + 1
      ∧ st' = { stB with dropped_calls := stB.dropped_calls + 1 })
    ∨ (¬ stB.total_max_queued_items ≤ sumLens stB.call_queues
      ∧ r = true
      ∧ ∃ q₁ d₁,
        ((¬ stB.max_queue_size ≤ (stB.queueOf key).length
            ∧ q₁ = stB.queueOf key ∧ d₁ = stB.dropped_calls)
          ∨ (stB.max_queue_size ≤ (stB.queueOf key).length
            ∧ stB.queue_strategy = QueueStrategy.dropOldest
            ∧ stB.queueOf key ≠ []
            ∧ q₁ = (stB.queueOf key).tail
            ∧ d₁ = stB.dropped_calls + 1)
          ∨ (stB.max_queue_size ≤ (stB.queueOf key).length
            ∧ stB.queue_strategy = QueueStrategy.dropNewest
            ∧ stB.queueOf key ≠ []
            ∧ q₁ = (stB.queueOf key).dropLast
            ∧ d₁ = stB.dropped_calls + 1))
        ∧ (((alookup stB.processing_flags key).getD false = true
            ∧ st' = { stB with
                dropped_calls := d₁,
                call_queues := setKey stB.call_queues key
                  (q₁ ++ [⟨fnId, fails, argsId, clock t⟩]) }
            ∧ t' = t + 1)
          ∨ ((alookup stB.processing_flags key).getD false = false
            ∧ (st', t') = processQueue clock fuel
                { stB with
                  dropped_calls := d₁,
                  call_queues := setKey stB.call_queues key
                    (q₁ ++ [⟨fnId, fails, argsId, clock t⟩]) }
                (t + 1) key))) := by
  simp only [submitAfterInit] at heq
  by_cases hG : stB.total_max_queued_items ≤ sumLens stB.call_queues
  · rw [if_pos hG] at heq
    simp only [Option.some.injEq, Prod.mk.injEq] at heq
    exact Or.inl ⟨hG, heq.1.symm, heq.2.2.symm, heq.2.1.symm⟩
  · rw [if_neg hG] at heq
    by_cases hfull : stB.max_queue_size ≤ (stB.queueOf key).length
    · rw [if_pos hfull] at heq
      cases hstrat : stB.queue_strategy with
      | skipNew =>
        simp only [hstrat, Option.some.injEq, Prod.mk.injEq] at heq
        exact Or.inr (Or.inl
          ⟨hG, hfull, rfl, heq.1.symm, heq.2.2.symm, heq.2.1.symm⟩)
      | dropOldest =>
        simp only [hstrat] at heq
        cases hq : stB.queueOf key with
        | nil => simp [hq] at heq
        | cons c rest =>
          simp only [hq] at heq
          have hfull' : stB.max_queue_size ≤ (c :: rest).length := hq ▸ hfull
          by_cases hflag : (alookup stB.processing_flags key).getD false = true
          · rw [if_pos hflag] at heq
            simp only [Option.some.injEq, Prod.mk.injEq] at heq
            obtain ⟨hr, hst, ht⟩ := heq
            exact Or.inr (Or.inr ⟨hG, hr.symm, (c :: rest).tail,
              stB.dropped_calls + 1,
              Or.inr (Or.inl ⟨hfull', rfl, by simp, rfl, rfl⟩),
              Or.inl ⟨hflag, hst.symm, ht.symm⟩⟩)
          · rw [if_neg hflag] at heq
            simp only [Option.some.injEq, Prod.mk.injEq] at heq
            obtain ⟨hr, hst, ht⟩ := heq
            exact Or.inr (Or.inr ⟨hG, hr.symm, (c :: rest).tail,
              stB.dropped_calls + 1,
              Or.inr (Or.inl ⟨hfull', rfl, by simp, rfl, rfl⟩),
              Or.inr ⟨(Bool.not_eq_true _) ▸ hflag,
                by rw [← hst, ← ht]; rfl⟩⟩)
      | dropNewest =>
        simp only [hstrat] at heq
        cases hq : stB.queueOf key with
        | nil => simp [hq] at heq
        | cons c rest =>
          simp only [hq] at heq
          have hfull' : stB.max_queue_size ≤ (c :: rest).length := hq ▸ hfull
          by_cases hflag : (alookup stB.processing_flags key).getD false = true
          · rw [if_pos hflag] at heq
            simp only [Option.some.injEq, Prod.mk.injEq] at heq
            obtain ⟨hr, hst, ht⟩ := heq
            exact Or.inr (Or.inr ⟨hG, hr.symm, (c :: rest).dropLast,
              stB.dropped_calls + 1,
              Or.inr (Or.inr ⟨hfull', rfl, by simp, rfl, rfl⟩),
              Or.inl ⟨hflag, hst.symm, ht.symm⟩⟩)
          · rw [if_neg hflag] at heq
            simp only [Option.some.injEq, Prod.mk.injEq] at heq
            obtain ⟨hr, hst, ht⟩ := heq
            exact Or.inr (Or.inr ⟨hG, hr.symm, (c :: rest).dropLast,
              stB.dropped_calls + 1,
              Or.inr (Or.inr ⟨hfull', rfl, by simp, rfl, rfl⟩),
              Or.inr ⟨(Bool.not_eq_true _) ▸ hflag,
                by rw [← hst, ← ht]⟩⟩)
    · rw [if_neg hfull] at heq
      by_cases hflag : (alookup stB.processing_flags key).getD false = true
      · rw [if_pos hflag] at heq
        simp only [Option.some.injEq, Prod.mk.injEq] at heq
        obtain ⟨hr, hst, ht⟩ := heq
        exact Or.inr (Or.inr ⟨hG, hr.symm, stB.queueOf key, stB.dropped_calls,
          Or.inl ⟨hfull, rfl, rfl⟩, Or.inl ⟨hflag, hst.symm, ht.symm⟩⟩)
      · rw [if_neg hflag] at heq
        simp only [Option.some.injEq, Prod.mk.injEq] at heq
        obtain ⟨hr, hst, ht⟩ := heq
        exact Or.inr (Or.inr ⟨hG, hr.symm, stB.queueOf key, stB.dropped_calls,
          Or.inl ⟨hfull, rfl, rfl⟩,
          Or.inr ⟨(Bool.not_eq_true _) ▸ hflag, by rw [← hst, ← ht]⟩⟩)

theorem admitInit_fields (st : DState) (key : Key) :
    (admitInit st key).throttle_time = st.throttle_time
      ∧ (admitInit st key).last_execution_time = st.last_execution_time
      ∧ (admitInit st key).max_queue_size = st.max_queue_size
      ∧ (admitInit st key).queue_strategy = st.queue_strategy
      ∧ (admitInit st key).total_max_queued_items = st.total_max_queued_items
      ∧ (admitInit st key).dropped_calls = st.dropped_calls
      ∧ (admitInit st key).total_calls = st.total_calls + 1 := by
  by_cases hinit : (alookup st.call_queues key).isNone <;>
    simp [admitInit, hinit]

/-- C4: the global budget is an invariant of `submit` — if the total number
of queued items is within `total_max_queued_items` before a `queue_call`
returns, it still is afterwards, whatever the key, callable, strategy or
timing. -/
theorem queue_call_global_bound (clock : Nat → Rat) (st : DState) (t : Nat)
    (key : Key) (fnId : Nat) (fails : Bool) (argsId : Nat) (fuel : Nat)
    (r : Bool) (st' : DState) (t' : Nat)
    (hinv : sumLens st.call_queues ≤ st.total_max_queued_items)
    (heq : queue_call clock st t key fnId fails argsId fuel
      = some (r, st', t')) :
    sumLens st'.call_queues ≤ st'.total_max_queued_items := by
  rw [queue_call_eq_stages] at heq
  have hs := admitInit_sumLens st key
  obtain ⟨-, -, -, -, hmax, -, -⟩ := admitInit_fields st key
  rcases submitAfterInit_cases clock (admitInit st key) t key fnId fails
      argsId fuel r st' t' heq with
    ⟨hG, -, -, hst⟩ | ⟨hG, -, -, -, -, hst⟩ | ⟨hG, -, q₁, d₁, hsub, hcont⟩
  · subst hst
    show sumLens (admitInit st key).call_queues
      ≤ (admitInit st key).total_max_queued_items
    rw [hs, hmax]
    exact hinv
  · subst hst
    show sumLens (admitInit st key).call_queues
      ≤ (admitInit st key).total_max_queued_items
    rw [hs, hmax]
    exact hinv
  · have hGlt : sumLens st.call_queues + 1 ≤ st.total_max_queued_items := by
      rw [hs, hmax] at hG
      omega
    have hid := sumLens_setKey (admitInit st key).call_queues key
      (q₁ ++ [⟨fnId, fails, argsId, clock t⟩])
    have hcast : ((alookup (admitInit st key).call_queues key).getD []).length
        = ((admitInit st key).queueOf key).length := rfl
    rw [hcast] at hid
    simp only [List.length_append, List.length_cons, List.length_nil] at hid
    have hD : sumLens (setKey (admitInit st key).call_queues key
        (q₁ ++ [⟨fnId, fails, argsId, clock t⟩])) ≤ sumLens st.call_queues + 1 := by
      rcases hsub with ⟨-, hq₁, -⟩ | ⟨-, -, hne, hq₁, -⟩ | ⟨-, -, hne, hq₁, -⟩
      · subst hq₁
        omega
      · have hlen : ((admitInit st key).queueOf key).length
            = q₁.length + 1 := by
          subst hq₁
          rw [List.length_tail]
          have := List.length_pos.mpr hne
          omega
        rw [hlen] at hid
        omega
      · have hlen : ((admitInit st key).queueOf key).length
            = q₁.length + 1 := by
          subst hq₁
          rw [List.length_dropLast]
          have := List.length_pos.mpr hne
          omega
        rw [hlen] at hid
        omega
    rcases hcont with ⟨-, hst, -⟩ | ⟨-, hpair⟩
    · subst hst
      show sumLens (setKey (admitInit st key).call_queues key
          (q₁ ++ [⟨fnId, fails, argsId, clock t⟩]))
        ≤ (admitInit st key).total_max_queued_items
      rw [hmax]
      omega
    · have hst : st' = (processQueue clock fuel
          { admitInit st key with
            dropped_calls := d₁,
            call_queues := setKey (admitInit st key).call_queues key
              (q₁ ++ [⟨fnId, fails, argsId, clock t⟩]) }
          (t + 1) key).1 := congrArg Prod.fst hpair
    
      obtain ⟨-, hsum, -, -, -, hmax2, -, -⟩ :=
        processQueue_drainLe clock fuel
          { admitInit st key with
            dropped_calls := d₁,
            call_queues := setKey (admitInit st key).call_queues key
              (q₁ ++ [⟨fnId, fails, argsId, clock t⟩]) }
          (t + 1) key
      have hproj1 : sumLens ({ admitInit st key with
          dropped_calls := d₁,
          call_queues := setKey (admitInit st key).call_queues key
            (q₁ ++ [⟨fnId, fails, argsId, clock t⟩]) } : DState).call_queues
          = sumLens (setKey (admitInit st key).call_queues key
            (q₁ ++ [⟨fnId, fails, argsId, clock t⟩])) := rfl
      have hproj2 : ({ admitInit st key with
          dropped_calls := d₁,
          call_queues := setKey (admitInit st key).call_queues key
            (q₁ ++ [⟨fnId, fails, argsId, clock t⟩]) } : DState).total_max_queued_items
          = st.total_max_queued_items := hmax
      rw [hproj1] at hsum
      rw [hproj2] at hmax2
      rw [hst, hmax2]
      omega

/-- C5 (amended): the per-key bound is preserved by each `queue_call` under
the configuration in force when it runs: if every queue is within the
current `max_queue_size` before the call, every queue still is when it
returns.  (Lowering `max_queue_size` between submissions can break the
bound, since admission evicts at most one entry per overflowing submit —
see the counterexample.) -/
theorem queue_call_per_key_bound (clock : Nat → Rat) (st : DState) (t : Nat)
    (key : Key) (fnId : Nat) (fails : Bool) (argsId : Nat) (fuel : Nat)
    (r : Bool) (st' : DState) (t' : Nat)
    (hinv : ∀ k, (st.queueOf k).length ≤ st.max_queue_size)
    (heq : queue_call clock st t key fnId fails argsId fuel
      = some (r, st', t')) :
    ∀ k, (st'.queueOf k).length ≤ st'.max_queue_size := by
  rw [queue_call_eq_stages] at heq
  obtain ⟨-, -, hmaxq, -, -, -, -⟩ := admitInit_fields st key
  have hqof := admitInit_queueOf st key
  rcases submitAfterInit_cases clock (admitInit st key) t key fnId fails
      argsId fuel r st' t' heq with
    ⟨hG, -, -, hst⟩ | ⟨hG, -, -, -, -, hst⟩ | ⟨hG, -, q₁, d₁, hsub, hcont⟩
  · subst hst
    intro k
    show ((admitInit st key).queueOf k).length
      ≤ (admitInit st key).max_queue_size
    rw [hqof, hmaxq]
    exact hinv k
  · subst hst
    intro k
    show ((admitInit st key).queueOf k).length
      ≤ (admitInit st key).max_queue_size
    rw [hqof, hmaxq]
    exact hinv k
  · -- the freshly enqueued queue respects the bound
    have hDlen : ∀ k,
        ((alookup (setKey (admitInit st key).call_queues key
          (q₁ ++ [⟨fnId, fails, argsId, clock t⟩])) k).getD []).length
        ≤ st.max_queue_size := by
      intro k
      by_cases hk : key = k
      · subst hk
        rw [alookup_setKey_self]
        simp only [Option.getD_some, List.length_append, List.length_cons,
          List.length_nil]
        rcases hsub with ⟨hnf, hq₁, -⟩ | ⟨-, -, hne, hq₁, -⟩ | ⟨-, -, hne, hq₁, -⟩
        · rw [hqof, hmaxq] at hnf
          subst hq₁
          rw [hqof key]
          omega
        · subst hq₁
          rw [List.length_tail]
          have hpos := List.length_pos.mpr hne
          have := hinv key
          rw [← hqof key] at this
          omega
        · subst hq₁
          rw [List.length_dropLast]
          have hpos := List.length_pos.mpr hne
          have := hinv key
          rw [← hqof key] at this
          omega
      · rw [alookup_setKey_ne _ _ hk]
        have : ((admitInit st key).queueOf k).length ≤ st.max_queue_size := by
          rw [hqof]
          exact hinv k
        exact this
    rcases hcont with ⟨-, hst, -⟩ | ⟨-, hpair⟩
    · subst hst
      intro k
      show ((alookup (setKey (admitInit st key).call_queues key
          (q₁ ++ [⟨fnId, fails, argsId, clock t⟩])) k).getD []).length
        ≤ (admitInit st key).max_queue_size
      rw [hmaxq]
      exact hDlen k
    · have hst : st' = (processQueue clock fuel
          { admitInit st key with
            dropped_calls := d₁,
            call_queues := setKey (admitInit st key).call_queues key
              (q₁ ++ [⟨fnId, fails, argsId, clock t⟩]) }
          (t + 1) key).1 := congrArg Prod.fst hpair
      obtain ⟨hqle, -, -, hmax2, -, -, -, -⟩ :=
        processQueue_drainLe clock fuel
          { admitInit st key with
            dropped_calls := d₁,
            call_queues := setKey (admitInit st key).call_queues key
              (q₁ ++ [⟨fnId, fails, argsId, clock t⟩]) }
          (t + 1) key
      intro k
      rw [hst, hmax2]
      refine le_trans (hqle k) ?_
      show ((alookup (setKey (admitInit st key).call_queues key
          (q₁ ++ [⟨fnId, fails, argsId, clock t⟩])) k).getD []).length
        ≤ (admitInit st key).max_queue_size
      rw [hmaxq]
      exact hDlen k

/-- C7: every `queue_call` that returns counts the call in `total_calls`
exactly once; it returns `false` — counting one drop and enqueueing nothing,
with every queue reading unchanged — precisely when the global budget is
exhausted or the key's queue is full under `skip_new`; in every other case
it returns `true`. -/
theorem queue_call_return_contract (clock : Nat → Rat) (st : DState)
    (t : Nat) (key : Key) (fnId : Nat) (fails : Bool) (argsId : Nat)
    (fuel : Nat) (r : Bool) (st' : DState) (t' : Nat)
    (heq : queue_call clock st t key fnId fails argsId fuel
      = some (r, st', t')) :
    st'.total_calls = st.total_calls + 1
      ∧ (r = false → st'.dropped_calls = st.dropped_calls + 1
          ∧ (∀ k, st'.queueOf k = st.queueOf k))
      ∧ (r = false ↔
          (st.total_max_queued_items ≤ sumLens st.call_queues
            ∨ (st.max_queue_size ≤ (st.queueOf key).length
              ∧ st.queue_strategy = QueueStrategy.skipNew))) := by
  rw [queue_call_eq_stages] at heq
  have hs := admitInit_sumLens st key
  have hqof := admitInit_queueOf st key
  obtain ⟨-, -, hmaxq, hstrat, hmax, hdrop, htot⟩ := admitInit_fields st key
  rcases submitAfterInit_cases clock (admitInit st key) t key fnId fails
      argsId fuel r st' t' heq with
    ⟨hG, hr, -, hst⟩ | ⟨hG, hfull, hskip, hr, -, hst⟩ |
    ⟨hG, hr, q₁, d₁, hsub, hcont⟩
  · subst hst
    rw [hs, hmax] at hG
    refine ⟨htot, fun _ => ⟨by rw [← hdrop], fun k => hqof k⟩,
      ⟨fun _ => Or.inl hG, fun _ => hr⟩⟩
  · subst hst
    rw [hqof, hmaxq] at hfull
    rw [hstrat] at hskip
    refine ⟨htot, fun _ => ⟨by rw [← hdrop], fun k => hqof k⟩,
      ⟨fun _ => Or.inr ⟨hfull, hskip⟩, fun _ => hr⟩⟩
  · rw [hs, hmax] at hG
    have hcontradict : ¬ (st.total_max_queued_items ≤ sumLens st.call_queues
        ∨ (st.max_queue_size ≤ (st.queueOf key).length
          ∧ st.queue_strategy = QueueStrategy.skipNew)) := by
      rintro (hc | ⟨hcfull, hcskip⟩)
      · exact hG hc
      · rcases hsub with ⟨hnf, -, -⟩ | ⟨-, hso, -, -, -⟩ | ⟨-, hsn, -, -, -⟩
        · rw [hqof, hmaxq] at hnf
          exact hnf hcfull
        · rw [hstrat] at hso
          rw [hso] at hcskip
          exact QueueStrategy.noConfusion hcskip
        · rw [hstrat] at hsn
          rw [hsn] at hcskip
          exact QueueStrategy.noConfusion hcskip
    have hrr : ¬ r = false := by
      rw [hr]
      simp
    have htotal : st'.total_calls = st.total_calls + 1 := by
      rcases hcont with ⟨-, hst, -⟩ | ⟨-, hpair⟩
      · subst hst
        exact htot
      · have hst : st' = (processQueue clock fuel
            { admitInit st key with
              dropped_calls := d₁,
              call_queues := setKey (admitInit st key).call_queues key
                (q₁ ++ [⟨fnId, fails, argsId, clock t⟩]) }
            (t + 1) key).1 := congrArg Prod.fst hpair
        obtain ⟨-, -, -, -, -, -, -, htot2⟩ :=
          processQueue_drainLe clock fuel
            { admitInit st key with
              dropped_calls := d₁,
              call_queues := setKey (admitInit st key).call_queues key
                (q₁ ++ [⟨fnId, fails, argsId, clock t⟩]) }
            (t + 1) key
        rw [hst, htot2]
        exact htot
    exact ⟨htotal, fun hrf => absurd hrf hrr,
      ⟨fun hrf => absurd hrf hrr, fun hc => absurd hc hcontradict⟩⟩

/-- C3: a submit to a key whose queue is exactly at `max_queue_size` under
`drop_newest` evicts the most recently queued existing entry, counts one
drop, enqueues the incoming call at the tail, and returns `true` — the
incoming call itself is never refused on this branch.  (Stated with the
key's drain in flight so that the admission effect is observable; the
global budget must have room, and the queue must be non-trivial.) -/
theorem queue_call_drop_newest (clock : Nat → Rat) (st : DState) (t : Nat)
    (key : Key) (fnId : Nat) (fails : Bool) (argsId : Nat) (fuel : Nat)
    (r : Bool) (st' : DState) (t' : Nat)
    (hstrat : st.queue_strategy = QueueStrategy.dropNewest)
    (hlen : (st.queueOf key).length = st.max_queue_size)
    (hpos : 1 ≤ st.max_queue_size)
    (hroom : sumLens st.call_queues < st.total_max_queued_items)
    (hflag : (alookup st.processing_flags key).getD false = true)
    (heq : queue_call clock st t key fnId fails argsId fuel
      = some (r, st', t')) :
    r = true ∧ t' = t + 1
      ∧ st'.dropped_calls = st.dropped_calls + 1
      ∧ st'.queueOf key
          = (st.queueOf key).dropLast ++ [⟨fnId, fails, argsId, clock t⟩] := by
  have hknown : ¬ alookup st.call_queues key = none := by
    intro hnone
    have : (st.queueOf key).length = 0 := by
      show ((alookup st.call_queues key).getD []).length = 0
      rw [hnone]
      rfl
    omega
  have hAI : admitInit st key = { st with total_calls := st.total_calls + 1 } :=
    admitInit_of_known st key hknown
  rw [queue_call_eq_stages] at heq
  have hs := admitInit_sumLens st key
  have hqof := admitInit_queueOf st key
  obtain ⟨-, -, hmaxq, hstratB, hmax, -, -⟩ := admitInit_fields st key
  rcases submitAfterInit_cases clock (admitInit st key) t key fnId fails
      argsId fuel r st' t' heq with
    ⟨hG, -, -, -⟩ | ⟨-, -, hskip, -, -, -⟩ | ⟨-, hr, q₁, d₁, hsub, hcont⟩
  · rw [hs, hmax] at hG
    omega
  · rw [hstratB, hstrat] at hskip
    exact QueueStrategy.noConfusion hskip
  · rcases hsub with ⟨hnf, -, -⟩ | ⟨-, hso, -, -, -⟩ | ⟨-, -, -, hq₁, hd₁⟩
    · rw [hqof, hmaxq] at hnf
      omega
    · rw [hstratB, hstrat] at hso
      exact QueueStrategy.noConfusion hso
    · rcases hcont with ⟨-, hst, ht⟩ | ⟨hfB, -⟩
      · subst hst
        refine ⟨hr, ht, ?_, ?_⟩
        · show d₁ = st.dropped_calls + 1
          rw [hd₁, hAI]
        · show (alookup (setKey (admitInit st key).call_queues key
              (q₁ ++ [⟨fnId, fails, argsId, clock t⟩])) key).getD []
            = (st.queueOf key).dropLast ++ [⟨fnId, fails, argsId, clock t⟩]
          rw [alookup_setKey_self]
          rw [hq₁, hqof key]
          rfl
      · rw [hAI] at hfB
        have : (alookup st.processing_flags key).getD false = false := hfB
        rw [hflag] at this
        exact Bool.noConfusion this

/-- C4 witness: the global-bound invariant applied to `busyState`. -/
theorem queue_call_global_bound_witness :
    (sumLens busyState.call_queues ≤ busyState.total_max_queued_items
      ∧ queue_call (fun _ => 0) busyState 0 "a" 2 false 0 3
          = some (true, busyStateAfter, 1))
    ∧ sumLens busyStateAfter.call_queues
        ≤ busyStateAfter.total_max_queued_items :=
  ⟨⟨by decide, by decide⟩,
    queue_call_global_bound (fun _ => 0) busyState 0 "a" 2 false 0 3
      true busyStateAfter 1 (by decide) (by decide)⟩

/-- C5 witness: the per-key bound preservation applied to `busyState`. -/
theorem queue_call_per_key_bound_witness :
    ((∀ k, (busyState.queueOf k).length ≤ busyState.max_queue_size)
      ∧ queue_call (fun _ => 0) busyState 0 "a" 2 false 0 3
          = some (true, busyStateAfter, 1))
    ∧ (∀ k, (busyStateAfter.queueOf k).length
        ≤ busyStateAfter.max_queue_size) := by
  have hinv : ∀ k, (busyState.queueOf k).length ≤ busyState.max_queue_size := by
    intro k
    show ((alookup busyState.call_queues k).getD []).length
      ≤ busyState.max_queue_size
    simp only [busyState, alookup]
    split <;> decide
  exact ⟨⟨hinv, by decide⟩,
    queue_call_per_key_bound (fun _ => 0) busyState 0 "a" 2 false 0 3
      true busyStateAfter 1 hinv (by decide)⟩

/-- C7 witness: the return contract applied to an accepted submit on
`busyState`. -/
theorem queue_call_return_contract_witness :
    queue_call (fun _ => 0) busyState 0 "a" 2 false 0 3
        = some (true, busyStateAfter, 1)
    ∧ (busyStateAfter.total_calls = busyState.total_calls + 1
      ∧ (true = false → busyStateAfter.dropped_calls
            = busyState.dropped_calls + 1
          ∧ (∀ k, busyStateAfter.queueOf k = busyState.queueOf k))
      ∧ (true = false ↔
          (busyState.total_max_queued_items ≤ sumLens busyState.call_queues
            ∨ (busyState.max_queue_size ≤ (busyState.queueOf "a").length
              ∧ busyState.queue_strategy = QueueStrategy.skipNew)))) :=
  ⟨by decide,
    queue_call_return_contract (fun _ => 0) busyState 0 "a" 2 false 0 3
      true busyStateAfter 1 (by decide)⟩

/-- C3 witness: the `drop_newest` admission contract applied to
`dropNewestState`. -/
theorem queue_call_drop_newest_witness :
    (dropNewestState.queue_strategy = QueueStrategy.dropNewest
      ∧ (dropNewestState.queueOf "a").length = dropNewestState.max_queue_size
      ∧ 1 ≤ dropNewestState.max_queue_size
      ∧ sumLens dropNewestState.call_queues
          < dropNewestState.total_max_queued_items
      ∧ (alookup dropNewestState.processing_flags "a").getD false = true
      ∧ queue_call (fun _ => 3) dropNewestState 0 "a" 9 false 7 4
          = some (true, dropNewestStateAfter, 1))
    ∧ (true = true ∧ 1 = 0 + 1
      ∧ dropNewestStateAfter.dropped_calls = dropNewestState.dropped_calls + 1
      ∧ dropNewestStateAfter.queueOf "a"
          = (dropNewestState.queueOf "a").dropLast ++ [⟨9, false, 7, 3⟩]) :=
  ⟨⟨by decide, by decide, by decide, by decide, by decide, by decide⟩,
    queue_call_drop_newest (fun _ => 3) dropNewestState 0 "a" 9 false 7 4
      true dropNewestStateAfter 1 (by decide) (by decide) (by decide)
      (by decide) (by decide) (by decide)⟩

/-- C5 counterexample: a submit/reconfigure/submit trace from the module's
initial state after which a queue holds 5 items while `max_queue_size` is 2
— `len(queue) <= max_per_queue` fails after a submit when
`set_queue_limits` lowered the cap in between, because admission evicts
only one entry per overflowing call. -/
theorem queue_call_per_key_bound_reconfig_cex :
    queue_call zeroClock (set_throttle_time initState 100) 0 "f" 1 false 0 10
        = some (true, c5Mid [] 1, 2)
      ∧ queue_call zeroClock (c5Mid [] 1) 2 "f" 2 false 0 10
          = some (true, c5Mid [2] 2, 3)
      ∧ queue_call zeroClock (c5Mid [2] 2) 3 "f" 3 false 0 10
          = some (true, c5Mid [2, 3] 3, 4)
      ∧ queue_call zeroClock (c5Mid [2, 3] 3) 4 "f" 4 false 0 10
          = some (true, c5Mid [2, 3, 4] 4, 5)
      ∧ queue_call zeroClock (c5Mid [2, 3, 4] 4) 5 "f" 5 false 0 10
          = some (true, c5Mid [2, 3, 4, 5] 5, 6)
      ∧ queue_call zeroClock (c5Mid [2, 3, 4, 5] 5) 6 "f" 6 false 0 10
          = some (true, c5Mid [2, 3, 4, 5, 6] 6, 7)
      ∧ queue_call zeroClock
          (set_queue_limits (c5Mid [2, 3, 4, 5, 6] 6) 2
            QueueStrategy.dropOldest 50) 7 "f" 7 false 0 10
          = some (true, c5Final, 8)
      ∧ (c5Final.queueOf "f").length = 5
      ∧ c5Final.max_queue_size = 2
      ∧ ¬ ((c5Final.queueOf "f").length ≤ c5Final.max_queue_size) := by
  refine ⟨?_, by decide, by decide, by decide, by decide, by decide,
    by decide, by decide, by decide, by decide⟩
  simp [queue_call, processQueue, execStep, alookup, setKey, sumLens,
    DState.queueOf, initState, set_throttle_time, set_queue_limits,
    zeroClock, c5Mid]
  norm_num

/-- C6: the throttle decision of `_process_queue` on a popped call (stated
for a singleton queue so that the decision is observed in isolation): it
executes immediately if and only if `now - last_execution_time[key]` has
reached `throttle_time` — otherwise nothing runs and the popped entry is
scheduled with wait exactly `throttle_time - (now - last)`; for a key with
no recorded execution the default `0` makes the first call immediately
eligible whenever the clock reads at least `throttle_time` (always true of
a wall clock counting seconds since the epoch). -/
theorem processQueue_throttle_decision (clock : Nat → Rat) (st : DState)
    (t : Nat) (key : Key) (c : PendingCall) (fuel : Nat)
    (hq : st.queueOf key = [c]) :
    (st.throttle_time ≤ clock t - (alookup st.last_execution_time key).getD 0 →
        (processQueue clock (fuel + 1) st t key).1.executions
            = st.executions ++ [(key, c.fnId)]
          ∧ (processQueue clock (fuel + 1) st t key).1.scheduled = st.scheduled)
      ∧ (clock t - (alookup st.last_execution_time key).getD 0
            < st.throttle_time →
        (processQueue clock (fuel + 1) st t key).1.scheduled
            = st.scheduled
              ++ [⟨key, c,
                  st.throttle_time
                    - (clock t - (alookup st.last_execution_time key).getD 0),
                  Int.floor ((st.throttle_time
                    - (clock t
                      - (alookup st.last_execution_time key).getD 0)) * 60)⟩]
          ∧ (processQueue clock (fuel + 1) st t key).1.executions
              = st.executions)
      ∧ (alookup st.last_execution_time key = none →
          st.throttle_time ≤ clock t →
          (processQueue clock (fuel + 1) st t key).1.executions
            = st.executions ++ [(key, c.fnId)]) := by
  have hq' : (alookup st.call_queues key).getD [] = [c] := hq
  refine ⟨?_, ?_, ?_⟩
  · intro hel
    by_cases hf : c.fails <;>
      simp [processQueue, hq, hq', execStep, hf, DState.queueOf,
        alookup_setKey_self, hel]
  · intro hlt
    have hnot : ¬ (st.throttle_time
        ≤ clock t - (alookup st.last_execution_time key).getD 0) :=
      not_le.mpr hlt
    simp [processQueue, hq, hq', hnot]
  · intro hnone h0
    have hel : st.throttle_time
        ≤ clock t - (alookup st.last_execution_time key).getD 0 := by
      rw [hnone]
      simpa using h0
    by_cases hf : c.fails <;>
      simp [processQueue, hq, hq', execStep, hf, DState.queueOf,
        alookup_setKey_self, hel]

/-- C6 witness: the throttle decision applied to `busyState` (one queued
call for `"a"`) at clock reading 5. -/
theorem processQueue_throttle_decision_witness :
    busyState.queueOf "a" = [⟨1, false, 0, 0⟩]
      ∧ ((busyState.throttle_time
            ≤ 5 - (alookup busyState.last_execution_time "a").getD 0 →
          (processQueue (fun _ => 5) 3 busyState 0 "a").1.executions
              = busyState.executions ++ [("a", 1)]
            ∧ (processQueue (fun _ => 5) 3 busyState 0 "a").1.scheduled
                = busyState.scheduled)
        ∧ (5 - (alookup busyState.last_execution_time "a").getD 0
              < busyState.throttle_time →
          (processQueue (fun _ => 5) 3 busyState 0 "a").1.scheduled
              = busyState.scheduled
                ++ [⟨"a", ⟨1, false, 0, 0⟩,
                    busyState.throttle_time
                      - (5 - (alookup busyState.last_execution_time "a").getD 0),
                    Int.floor ((busyState.throttle_time
                      - (5 - (alookup
                          busyState.last_execution_time "a").getD 0)) * 60)⟩]
            ∧ (processQueue (fun _ => 5) 3 busyState 0 "a").1.executions
                = busyState.executions)
        ∧ (alookup busyState.last_execution_time "a" = none →
            busyState.throttle_time ≤ 5 →
            (processQueue (fun _ => 5) 3 busyState 0 "a").1.executions
              = busyState.executions ++ [("a", 1)])) :=
  ⟨by decide,
    processQueue_throttle_decision (fun _ => 5) busyState 0 "a"
      ⟨1, false, 0, 0⟩ 2 (by decide)⟩

/-- C1 counterexample: executing a callable that raises does NOT update
`last_execution_time` (the update sits inside the `try` after the call), in
contrast with the successful execution of the same call, which records the
clock reading; the claim's "updated exactly as on success" is false. -/
theorem executeAndContinue_failure_skips_last_execution :
    (executeAndContinue (fun _ => 9) 3 midDrainState 0 "f"
        ⟨1, true, 0, 0⟩).1.last_execution_time = []
      ∧ (executeAndContinue (fun _ => 9) 3 midDrainState 0 "f"
          ⟨1, true, 0, 0⟩).1.executions = [("f", 1)]
      ∧ (executeAndContinue (fun _ => 9) 3 midDrainState 0 "f"
          ⟨1, false, 0, 0⟩).1.last_execution_time = [("f", 9)] := by
  decide

/-- C1 (amended): when the callable raises, `last_execution_time[key]` is
left unchanged (it is updated only on success, since the update statement
follows the call inside the `try`); the `finally` block still resets the
processing flag and continues the drain cycle, so the next oldest queued
item is executed in turn. -/
theorem executeAndContinue_failure_continues (clock : Nat → Rat)
    (fuel : Nat) (st : DState) (t : Nat) (key : Key) (c c₂ : PendingCall)
    (hcf : c.fails = true) (hc₂ : c₂.fails = true)
    (hq : st.queueOf key = [c₂])
    (hel : st.throttle_time
      ≤ clock t - (alookup st.last_execution_time key).getD 0) :
    (executeAndContinue clock (fuel + 1) st t key c).1.last_execution_time
        = st.last_execution_time
      ∧ (executeAndContinue clock (fuel + 1) st t key c).1.executions
          = st.executions ++ [(key, c.fnId), (key, c₂.fnId)]
      ∧ alookup (executeAndContinue clock
          (fuel + 1) st t key c).1.processing_flags key = some false := by
  have hq' : (alookup st.call_queues key).getD [] = [c₂] := hq
  simp [executeAndContinue, execStep, processQueue, hcf, hc₂, hq, hq',
    DState.queueOf, alookup_setKey_self, hel]

/-- C1 witness: the amended failure contract applied to `midDrainState2`
(a failing call executes while another failing call is queued). -/
theorem executeAndContinue_failure_continues_witness :
    ((⟨1, true, 0, 0⟩ : PendingCall).fails = true
      ∧ (⟨2, true, 0, 0⟩ : PendingCall).fails = true
      ∧ midDrainState2.queueOf "f" = [⟨2, true, 0, 0⟩]
      ∧ midDrainState2.throttle_time
          ≤ 9 - (alookup midDrainState2.last_execution_time "f").getD 0)
    ∧ ((executeAndContinue (fun _ => 9) 3 midDrainState2 0 "f"
          ⟨1, true, 0, 0⟩).1.last_execution_time
            = midDrainState2.last_execution_time
      ∧ (executeAndContinue (fun _ => 9) 3 midDrainState2 0 "f"
          ⟨1, true, 0, 0⟩).1.executions
            = midDrainState2.executions ++ [("f", 1), ("f", 2)]
      ∧ alookup (executeAndContinue (fun _ => 9) 3 midDrainState2 0 "f"
          ⟨1, true, 0, 0⟩).1.processing_flags "f" = some false) :=
  ⟨⟨rfl, rfl, by decide,
      by simp only [midDrainState2, midDrainState, alookup,
        Option.getD_none, sub_zero]; decide⟩,
    executeAndContinue_failure_continues (fun _ => 9) 2 midDrainState2 0 "f"
      ⟨1, true, 0, 0⟩ ⟨2, true, 0, 0⟩ rfl rfl (by decide)
      (by simp only [midDrainState2, midDrainState, alookup,
        Option.getD_none, sub_zero]; decide)⟩

/-- Draining a backlog of `n` immediately-eligible calls nests `2 * n`
frames (`max 1 (2 * n)` counting the outermost frame of an empty drain). -/
theorem pqStackDepth_backlog (key : Key) : ∀ (n : Nat) (st : DState)
    (t fuel : Nat), n < fuel →
    st.throttle_time = 0 →
    st.queueOf key = List.replicate n okCall →
    (alookup st.last_execution_time key).getD 0 = 0 →
    pqStackDepth zeroClock fuel st t key = if n = 0 then 1 else 2 * n := by
  intro n
  induction n with
  | zero =>
    intro st t fuel hfuel hthr hq hlast
    obtain ⟨f, rfl⟩ : ∃ f, fuel = f + 1 := ⟨fuel - 1, by omega⟩
    simp only [List.replicate] at hq
    simp [pqStackDepth, hq]
  | succ m ih =>
    intro st t fuel hfuel hthr hq hlast
    obtain ⟨f, rfl⟩ : ∃ f, fuel = f + 1 := ⟨fuel - 1, by omega⟩
    have hq' : st.queueOf key = okCall :: List.replicate m okCall := by
      rw [hq, List.replicate_succ]
    have hel : st.throttle_time
        ≤ zeroClock t - (alookup st.last_execution_time key).getD 0 := by
      rw [hthr, hlast]
      simp [zeroClock]
    rw [pqStackDepth]
    simp only [hq']
    rw [if_pos hel]
    have hsq : (execStep zeroClock
        { st with
          processing_flags := setKey st.processing_flags key true,
          call_queues := setKey st.call_queues key
            (List.replicate m okCall) }
        (t + 1) key okCall).1.queueOf key = List.replicate m okCall := by
      simp [execStep, okCall, DState.queueOf, alookup_setKey_self]
    by_cases hm : m = 0
    · subst hm
      rw [if_neg (by rw [hsq]; simp)]
      simp
    · rw [if_pos (by rw [hsq]; simp [List.length_replicate]; omega)]
      rw [ih _ _ _ (by omega) (by simpa [execStep, okCall] using hthr) hsq
        (by simp [execStep, okCall, alookup_setKey_self, zeroClock])]
      rw [if_neg hm]
      simp [hm]
      omega

/-- C2 counterexample: no constant bounds the drain's call-stack depth over
all backlog sizes — the recursive continue-from-`finally` pattern nests
deeper as the backlog grows. -/
theorem pqStackDepth_not_bounded :
    ¬ ∃ C, ∀ n,
      pqStackDepth zeroClock (n + 1) (backlogState "f" n) 0 "f" ≤ C := by
  rintro ⟨C, hC⟩
  have h := hC (C + 1)
  rw [pqStackDepth_backlog "f" (C + 1) (backlogState "f" (C + 1)) 0 (C + 2)
    (by omega) rfl
    (by simp [backlogState, DState.queueOf, alookup])
    rfl] at h
  simp at h
  omega

/-- C2 (amended): the per-key drain is recursive, not iterative — executing
a backlog of `n ≥ 1` immediately-eligible queued calls in one drain cycle
nests `2 * n` stack frames (one `_process_queue` and one
`_execute_and_continue` frame per item), so the call-stack depth grows
linearly with the backlog instead of being bounded by a constant. -/
theorem processQueue_backlog_depth_linear (key : Key) (n : Nat)
    (h : 1 ≤ n) :
    pqStackDepth zeroClock (n + 1) (backlogState key n) 0 key = 2 * n := by
  rw [pqStackDepth_backlog key n (backlogState key n) 0 (n + 1)
    (by omega) rfl
    (by simp [backlogState, DState.queueOf, alookup])
    rfl]
  have : ¬ n = 0 := by omega
  simp [this]

/-- C2 witness: a backlog of three eligible calls drains at stack depth 6. -/
theorem processQueue_backlog_depth_linear_witness :
    1 ≤ 3
      ∧ pqStackDepth zeroClock (3 + 1) (backlogState "f" 3) 0 "f" = 2 * 3 :=
  ⟨by decide, processQueue_backlog_depth_linear "f" 3 (by decide)⟩
